import Mathlib

/-!
Verification of the TextEditor core in
src/CppLuaEditor/example_plugin/Plugin.cpp, as a shallow embedding.

Bytes are modelled as natural numbers (the source type TextEditor::Char is an
unsigned char, and a Glyph stores one byte plus color metadata; the color
metadata never influences the operations verified here, so a line is a byte
list).  C++ int values that can legitimately go negative (coordinates) are
modelled as Int; loop counters that the source keeps non-negative are Nat.
Comparisons between an int and a size_t in the source promote the int to an
unsigned 64-bit value; for a negative int and any real vector size this makes
the comparison "index >= size" true, which is modelled by the explicit
disjunct "index < 0" (a comment marks each such place).
-/

set_option linter.unusedVariables false

namespace Spec2Proof

/-- Modelled from the spec: the TextEditor class declaration (header) is not
part of the sources; per the data model, a coordinate is a
(line, display-column) pair of ints. -/
structure Coordinates where
  mLine : Int
  mColumn : Int
deriving DecidableEq, Repr

/-- Modelled from the spec: EditorState is cursor plus the two selection
endpoints. -/
structure EditorState where
  mCursorPosition : Coordinates
  mSelectionStart : Coordinates
  mSelectionEnd : Coordinates
deriving DecidableEq, Repr

/-- A line is the ordered list of glyph bytes (newlines are structural and
never stored in a line). -/
abbrev Line := List Nat

/-- UTF8CharLength from the source (Plugin.cpp lines 167-179): mask tests on
the lead byte, first match wins. -/
def UTF8CharLength (c : Nat) : Nat :=
  if c &&& 0xFE = 0xFC then 6
  else if c &&& 0xFC = 0xF8 then 5
  else if c &&& 0xF8 = 0xF0 then 4
  else if c &&& 0xF0 = 0xE0 then 3
  else if c &&& 0xE0 = 0xC0 then 2
  else 1

/-- Modelled from the spec: the byte-length rule exactly as the spec words it,
bit pattern 11111110 (the single value 0xFE) giving 6, 111110xx giving 5,
11110xxx giving 4, 1110xxxx giving 3, 110xxxxx giving 2, else 1. -/
def specUTF8CharLength (c : Nat) : Nat :=
  if c = 0xFE then 6
  else if c / 4 = 0x3E then 5
  else if c / 8 = 0x1E then 4
  else if c / 16 = 0xE then 3
  else if c / 32 = 0x6 then 2
  else 1

/-- Amended byte-length rule: the source gives 6 on bit pattern 1111110x
(the two values 0xFC and 0xFD), not on 11111110; the other classes are as the
spec states them. -/
def amendedUTF8CharLength (c : Nat) : Nat :=
  if c / 2 = 0x7E then 6
  else if c / 4 = 0x3E then 5
  else if c / 8 = 0x1E then 4
  else if c / 16 = 0xE then 3
  else if c / 32 = 0x6 then 2
  else 1

/-- Loop body of GetCharacterIndex (Plugin.cpp 472-486): walk the line from
byte index 0, advancing the display column by one per character or rounding it
up to the next tab stop, until the column reaches the target.  The int target
column is passed as a Nat via Int.toNat: the loop guard c < column is false
for every non-positive target, matching toNat. -/
def charIndexLoop (line : Line) (tab : Nat) (col : Nat) (c i : Nat) : Nat :=
  if h : i < line.length ∧ c < col then
    charIndexLoop line tab col
      (if line.getD i 0 = 9 then (c / tab) * tab + tab else c + 1)
      (i + UTF8CharLength (line.getD i 0))
  else i
termination_by line.length - i
decreasing_by
  have : 0 < UTF8CharLength (line.getD i 0) := by
    unfold UTF8CharLength
    repeat' split
    all_goals omega
  omega

/-- GetCharacterIndex from the source: -1 when the coordinate line is outside
the buffer (the int line is compared against the size_t buffer size, so a
negative line also reads as out of range), else the loop result. -/
def getCharacterIndex (lines : List Line) (tab : Nat) (a : Coordinates) : Int :=
  if a.mLine < 0 ∨ (lines.length : Int) ≤ a.mLine then -1
  else (charIndexLoop (lines.getD a.mLine.toNat []) tab a.mColumn.toNat 0 0 : Int)

/-- Loop body of GetCharacterColumn (Plugin.cpp 488-503): walk aIndex bytes of
the line (or to its end), accumulating the display column under the same tab
rule.  The int byte budget stays an Int so that a negative aIndex gives zero
iterations as in the source. -/
def charColLoop (line : Line) (tab : Nat) (aIndex : Int) (col i : Nat) : Nat :=
  if h : (i : Int) < aIndex ∧ i < line.length then
    charColLoop line tab aIndex
      (if line.getD i 0 = 9 then (col / tab) * tab + tab else col + 1)
      (i + UTF8CharLength (line.getD i 0))
  else col
termination_by line.length - i
decreasing_by
  have : 0 < UTF8CharLength (line.getD i 0) := by
    unfold UTF8CharLength
    repeat' split
    all_goals omega
  omega

/-- GetCharacterColumn from the source: the int line number is compared
against the size_t buffer size (negative reads as out of range, giving 0). -/
def getCharacterColumn (lines : List Line) (tab : Nat) (aLine aIndex : Int) : Nat :=
  if aLine < 0 ∨ (lines.length : Int) ≤ aLine then 0
  else charColLoop (lines.getD aLine.toNat []) tab aIndex 0 0

/-- Loop body of GetLineMaxColumn (Plugin.cpp 515-529): full-line column
walk. -/
def lineMaxColLoop (line : Line) (tab : Nat) (col i : Nat) : Nat :=
  if h : i < line.length then
    lineMaxColLoop line tab
      (if line.getD i 0 = 9 then (col / tab) * tab + tab else col + 1)
      (i + UTF8CharLength (line.getD i 0))
  else col
termination_by line.length - i
decreasing_by
  have : 0 < UTF8CharLength (line.getD i 0) := by
    unfold UTF8CharLength
    repeat' split
    all_goals omega
  omega

/-- GetLineMaxColumn from the source: int line compared against size_t size
(negative reads as out of range, giving 0). -/
def getLineMaxColumn (lines : List Line) (tab : Nat) (aLine : Int) : Nat :=
  if aLine < 0 ∨ (lines.length : Int) ≤ aLine then 0
  else lineMaxColLoop (lines.getD aLine.toNat []) tab 0 0

/-- SanitizeCoordinates from the source (Plugin.cpp 147-163).  Here the line
is compared against the int cast of the size, so a negative line falls into
the else branch. -/
def sanitizeCoordinates (lines : List Line) (tab : Nat) (a : Coordinates) : Coordinates :=
  if (lines.length : Int) ≤ a.mLine then
    if lines.length = 0 then ⟨0, 0⟩
    else ⟨(lines.length : Int) - 1, (getLineMaxColumn lines tab ((lines.length : Int) - 1) : Int)⟩
  else
    ⟨a.mLine,
      if lines.length = 0 then 0
      else min a.mColumn (getLineMaxColumn lines tab a.mLine : Int)⟩

/-- SetTabSize from the source (Plugin.cpp 1360-1362): clamp to 0..32. -/
def setTabSize (v : Int) : Int := max 0 (min 32 v)

/-- Instrumented GetCharacterIndex loop: evaluating the tab-stop rounding
(col / tabSize) * tabSize + tabSize with tabSize = 0 is a division by zero in
the C++ source, modelled as none. -/
def charIndexLoopChecked (line : Line) (tab : Nat) (col : Nat) (c i : Nat) : Option Nat :=
  if h : i < line.length ∧ c < col then
    if line.getD i 0 = 9 then
      if tab = 0 then none
      else charIndexLoopChecked line tab col ((c / tab) * tab + tab)
        (i + UTF8CharLength (line.getD i 0))
    else charIndexLoopChecked line tab col (c + 1) (i + UTF8CharLength (line.getD i 0))
  else some i
termination_by line.length - i
decreasing_by
  all_goals
    have : 0 < UTF8CharLength (line.getD i 0) := by
      unfold UTF8CharLength
      repeat' split
      all_goals omega
    omega

/-- Instrumented GetCharacterColumn loop, divisions by zero as none. -/
def charColLoopChecked (line : Line) (tab : Nat) (aIndex : Int) (col i : Nat) : Option Nat :=
  if h : (i : Int) < aIndex ∧ i < line.length then
    if line.getD i 0 = 9 then
      if tab = 0 then none
      else charColLoopChecked line tab aIndex ((col / tab) * tab + tab)
        (i + UTF8CharLength (line.getD i 0))
    else charColLoopChecked line tab aIndex (col + 1) (i + UTF8CharLength (line.getD i 0))
  else some col
termination_by line.length - i
decreasing_by
  all_goals
    have : 0 < UTF8CharLength (line.getD i 0) := by
      unfold UTF8CharLength
      repeat' split
      all_goals omega
    omega

/-- Instrumented GetLineMaxColumn loop, divisions by zero as none. -/
def lineMaxColLoopChecked (line : Line) (tab : Nat) (col i : Nat) : Option Nat :=
  if h : i < line.length then
    if line.getD i 0 = 9 then
      if tab = 0 then none
      else lineMaxColLoopChecked line tab ((col / tab) * tab + tab)
        (i + UTF8CharLength (line.getD i 0))
    else lineMaxColLoopChecked line tab (col + 1) (i + UTF8CharLength (line.getD i 0))
  else some col
termination_by line.length - i
decreasing_by
  all_goals
    have : 0 < UTF8CharLength (line.getD i 0) := by
      unfold UTF8CharLength
      repeat' split
      all_goals omega
    omega

/-- The display columns actually realized while walking a line under the
source tab rule, starting from column col at byte index i: these are the
columns a cursor can sit on, i.e. the valid coordinates of the line. -/
def lineColumns (line : Line) (tab : Nat) (col i : Nat) : List Nat :=
  if h : i < line.length then
    col :: lineColumns line tab
      (if line.getD i 0 = 9 then (col / tab) * tab + tab else col + 1)
      (i + UTF8CharLength (line.getD i 0))
  else [col]
termination_by line.length - i
decreasing_by
  have : 0 < UTF8CharLength (line.getD i 0) := by
    unfold UTF8CharLength
    repeat' split
    all_goals omega
  omega

/-- Batch increment from ColorizeInternal (Plugin.cpp 2315): 10 when the
language has no custom tokenizer (regex-only), 10000 when it has one. -/
def colorizeIncrement (hasTokenize : Bool) : Nat :=
  if hasTokenize then 10000 else 10

/-- One incremental colorization bookkeeping step from ColorizeInternal
(Plugin.cpp 2314-2325): process lines [rangeMin, to) where
to = min(rangeMin + increment, rangeMax), advance rangeMin to to, and reset
to the sentinel interval (10000, 0) once the window closes. -/
def colorizeStep (hasTokenize : Bool) (rangeMin rangeMax : Nat) : Nat × Nat :=
  if rangeMin < rangeMax then
    let toLine := min (rangeMin + colorizeIncrement hasTokenize) rangeMax
    if rangeMax = toLine then (10000, 0) else (toLine, rangeMax)
  else (rangeMin, rangeMax)

/-- Number of dirty lines consumed by one step, i.e. to - rangeMin. -/
def colorizeBatch (hasTokenize : Bool) (rangeMin rangeMax : Nat) : Nat :=
  min (rangeMin + colorizeIncrement hasTokenize) rangeMax - rangeMin

/-- Modelled from the spec: the claimed batch size, 10 with a custom
tokenizer and 10000 for regex-only languages. -/
def specColorizeBatch (hasTokenize : Bool) (remaining : Nat) : Nat :=
  if hasTokenize then min 10 remaining else min 10000 remaining

/-- C isspace over the byte range (C locale): space and the five control
whitespace bytes 9..13. -/
def isspaceB (c : Nat) : Bool :=
  decide (c = 32) || (decide (9 ≤ c) && decide (c ≤ 13))

/-- Index of the first non-whitespace byte of a line (the line length when the
line is all whitespace), the non_ws walk of ToggleComment. -/
def firstNonWS : Line → Nat
  | [] => 0
  | c :: rest => if isspaceB c then firstNonWS rest + 1 else 0

/-- The check non_ws + 1 < line.size() && line[non_ws] == slash &&
line[non_ws + 1] == slash from ToggleComment (byte 47 is the slash). -/
def lineStartsSlashes (line : Line) : Bool :=
  let n := firstNonWS line
  decide (n + 1 < line.length) && decide (line.getD n 0 = 47) &&
    decide (line.getD (n + 1) 0 = 47)

/-- First line of the span affected by ToggleComment (Plugin.cpp 1606-1613):
the cursor line, or the smaller selection line when the selection spans
several lines.  The source casts the int to size_t; states reaching this code
have non-negative lines, modelled by Int.toNat. -/
def spanStart (st : EditorState) : Nat :=
  if st.mSelectionStart.mLine ≠ st.mSelectionEnd.mLine then
    (min st.mSelectionStart.mLine st.mSelectionEnd.mLine).toNat
  else st.mCursorPosition.mLine.toNat

/-- Last line of the span affected by ToggleComment. -/
def spanEnd (st : EditorState) : Nat :=
  if st.mSelectionStart.mLine ≠ st.mSelectionEnd.mLine then
    (max st.mSelectionStart.mLine st.mSelectionEnd.mLine).toNat
  else st.mCursorPosition.mLine.toNat

/-- The uncomment_all computation of ToggleComment (Plugin.cpp 1696-1719):
true when the first span line exists and starts with two slashes after its
leading whitespace, and every non-empty line of the span (clipped to the
buffer) does as well. -/
def uncommentAllFlag (lines : List Line) (s e : Nat) : Bool :=
  if s < lines.length then
    lineStartsSlashes (lines.getD s []) &&
      (List.range' s (min (e + 1) lines.length - s)).all
        (fun idx => (lines.getD idx []).isEmpty || lineStartsSlashes (lines.getD idx []))
  else false

/-- The per-line commenting transformation performed by the ToggleComment
loop: two slash glyphs inserted at the first non-whitespace index. -/
def commentLine (l : Line) : Line :=
  l.take (firstNonWS l) ++ [47, 47] ++ l.drop (firstNonWS l)

/-- The per-line uncommenting transformation performed by the ToggleComment
loop: the two bytes at the first non-whitespace index erased. -/
def uncommentLine (l : Line) : Line :=
  l.take (firstNonWS l) ++ l.drop (firstNonWS l + 2)

/-- Column adjustment when commenting (Plugin.cpp 1753-1758): on the affected
line, columns at or after non_ws move right by the two inserted bytes. -/
def bumpAdd (a : Coordinates) (idx n : Nat) : Coordinates :=
  if a.mLine = (idx : Int) ∧ (n : Int) ≤ a.mColumn then ⟨a.mLine, a.mColumn + 2⟩ else a

/-- Column adjustment when uncommenting (Plugin.cpp 1739-1744): on the
affected line, columns strictly after non_ws move left by two, clamped at
non_ws. -/
def bumpSub (a : Coordinates) (idx n : Nat) : Coordinates :=
  if a.mLine = (idx : Int) ∧ (n : Int) < a.mColumn then
    ⟨a.mLine, max (n : Int) (a.mColumn - 2)⟩
  else a

def stateAdd (st : EditorState) (idx n : Nat) : EditorState :=
  ⟨bumpAdd st.mCursorPosition idx n, bumpAdd st.mSelectionStart idx n,
    bumpAdd st.mSelectionEnd idx n⟩

def stateSub (st : EditorState) (idx n : Nat) : EditorState :=
  ⟨bumpSub st.mCursorPosition idx n, bumpSub st.mSelectionStart idx n,
    bumpSub st.mSelectionEnd idx n⟩

/-- State threaded through the per-line loop of ToggleComment. -/
structure ToggleSt where
  lines : List Line
  st : EditorState
  didModify : Bool
deriving DecidableEq, Repr

/-- Per-line loop of the line-mode branch of ToggleComment (Plugin.cpp
1722-1760): for each span line inside the buffer, skip empty lines, erase the
two slashes after the leading whitespace when uncommenting, or insert two
slash glyphs there when commenting, shifting cursor and selection columns on
that line. -/
def toggleLoop (uncommentAll : Bool) (e idx : Nat) (ts : ToggleSt) : ToggleSt :=
  if h : idx ≤ e ∧ idx < ts.lines.length then
    if (ts.lines.getD idx []).isEmpty then toggleLoop uncommentAll e (idx + 1) ts
    else
      if uncommentAll then
        if lineStartsSlashes (ts.lines.getD idx []) then
          toggleLoop uncommentAll e (idx + 1)
            ⟨ts.lines.set idx (uncommentLine (ts.lines.getD idx [])),
              stateSub ts.st idx (firstNonWS (ts.lines.getD idx [])), true⟩
        else toggleLoop uncommentAll e (idx + 1) ts
      else
        toggleLoop uncommentAll e (idx + 1)
          ⟨ts.lines.set idx (commentLine (ts.lines.getD idx [])),
            stateAdd ts.st idx (firstNonWS (ts.lines.getD idx [])), true⟩
  else ts
termination_by e + 1 - idx

/-- UndoRecord per the spec data model; C++ default-initializes the
coordinates to (0,0) and the texts to empty. -/
structure UndoRecord where
  mAdded : List Nat := []
  mAddedStart : Coordinates := ⟨0, 0⟩
  mAddedEnd : Coordinates := ⟨0, 0⟩
  mRemoved : List Nat := []
  mRemovedStart : Coordinates := ⟨0, 0⟩
  mRemovedEnd : Coordinates := ⟨0, 0⟩
  mBefore : EditorState := ⟨⟨0, 0⟩, ⟨0, 0⟩, ⟨0, 0⟩⟩
  mAfter : EditorState := ⟨⟨0, 0⟩, ⟨0, 0⟩, ⟨0, 0⟩⟩
deriving DecidableEq, Repr

instance : Inhabited UndoRecord := ⟨{}⟩

/-- Loop of GetText (Plugin.cpp 125-138): append bytes of the current line up
to the end index, emitting the structural newline byte 10 between lines; break
once the line counter reaches the buffer size.  The source starts istart at
GetCharacterIndex(aStart), an int that is non-negative whenever the start
coordinate is inside the buffer (all call sites verified here); lstart is the
int start line. -/
def getTextLoop (lines : List Line) (lstart istart : Nat) (lend iend : Int) : List Nat :=
  if h : (istart : Int) < iend ∨ (lstart : Int) < lend then
    if hsize : lines.length ≤ lstart then []
    else
      if istart < (lines.getD lstart []).length then
        (lines.getD lstart []).getD istart 0 :: getTextLoop lines lstart (istart + 1) lend iend
      else 10 :: getTextLoop lines (lstart + 1) 0 lend iend
  else []
termination_by (lines.length - lstart, (lines.getD lstart []).length + 1 - istart)
decreasing_by
  · apply Prod.Lex.right
    omega
  · apply Prod.Lex.left
    omega

/-- GetText over a coordinate range from the source. -/
def getText (lines : List Line) (tab : Nat) (aStart aEnd : Coordinates) : List Nat :=
  getTextLoop lines aStart.mLine.toNat (getCharacterIndex lines tab aStart).toNat
    aEnd.mLine (getCharacterIndex lines tab aEnd)

/-- GetText() from the source (Plugin.cpp 2076-2078): the whole buffer, from
(0,0) to (lines, 0). -/
def getTextFull (lines : List Line) (tab : Nat) : List Nat :=
  getText lines tab ⟨0, 0⟩ ⟨(lines.length : Int), 0⟩

/-- RemoveLine(int,int) restricted to the line vector itself (the side-table
renumbering is modelled separately below): erase lines [aStart, aEnd). -/
def removeLinesOnly (lines : List Line) (s e : Nat) : List Line :=
  lines.take s ++ lines.drop e

/-- DeleteRange from the source (Plugin.cpp 233-267), acting on the line
vector.  Indices are computed before any mutation; the same-line branch erases
to the line end when the end column is at or past the line max column. -/
def deleteRange (lines : List Line) (tab : Nat) (aStart aEnd : Coordinates) : List Line :=
  if aEnd = aStart then lines
  else
    let istart := (getCharacterIndex lines tab aStart).toNat
    let iend := (getCharacterIndex lines tab aEnd).toNat
    if aStart.mLine = aEnd.mLine then
      let li := aStart.mLine.toNat
      let line := lines.getD li []
      if (getLineMaxColumn lines tab aStart.mLine : Int) ≤ aEnd.mColumn then
        lines.set li (line.take istart)
      else lines.set li (line.take istart ++ line.drop iend)
    else
      let ls := aStart.mLine.toNat
      let le := aEnd.mLine.toNat
      let headPart := (lines.getD ls []).take istart
      let tailPart := (lines.getD le []).drop iend
      let merged := if aStart.mLine < aEnd.mLine then headPart ++ tailPart else headPart
      let lines1 := (lines.set le tailPart).set ls merged
      if aStart.mLine < aEnd.mLine then removeLinesOnly lines1 (ls + 1) (le + 1) else lines1

/-- Loop of InsertTextAt (Plugin.cpp 274-303) on the line vector: skip
carriage returns, split the line at the insertion index on newline (InsertLine
then move the tail), otherwise insert the UTF-8 chunk byte by byte.  The
cindex counter is maintained alongside the coordinate as in the source. -/
def insertTextAtLoop (lines : List Line) (w : Coordinates) (ci : Nat) (value : List Nat)
    (tot : Nat) : List Line × Coordinates × Nat :=
  match value with
  | [] => (lines, w, tot)
  | b :: rest =>
    if b = 13 then insertTextAtLoop lines w ci rest tot
    else if b = 10 then
      let li := w.mLine.toNat
      let line := lines.getD li []
      let lines1 :=
        if ci < line.length then
          (lines.set li (line.take ci)).insertIdx (li + 1) (line.drop ci)
        else lines.insertIdx (li + 1) []
      insertTextAtLoop lines1 ⟨w.mLine + 1, 0⟩ 0 rest (tot + 1)
    else
      let d := UTF8CharLength b
      let chunk := (b :: rest).take d
      let li := w.mLine.toNat
      let line := lines.getD li []
      insertTextAtLoop (lines.set li (line.take ci ++ chunk ++ line.drop ci))
        ⟨w.mLine, w.mColumn + 1⟩ (ci + chunk.length) ((b :: rest).drop d) tot
termination_by value.length
decreasing_by
  all_goals simp only [List.length_drop, List.length_cons]
  · omega
  · omega
  · have : 0 < UTF8CharLength b := by
      unfold UTF8CharLength
      repeat' split
      all_goals omega
    omega

/-- InsertTextAt from the source: starts at the character index of the target
coordinate (non-negative at every call site modelled here). -/
def insertTextAt (lines : List Line) (tab : Nat) (w : Coordinates) (value : List Nat) :
    List Line × Coordinates × Nat :=
  insertTextAtLoop lines w (getCharacterIndex lines tab w).toNat value 0

/-- Line-mode ToggleComment (Plugin.cpp 1605-1780, shift = false): compute the
span, return unchanged on a single empty line, otherwise run the per-line
loop; when a change was made, build the best-effort undo record holding only
the after-image text of the span (mRemoved stays empty). -/
def toggleCommentLM (lines : List Line) (tab : Nat) (st : EditorState) :
    List Line × EditorState × Option UndoRecord :=
  let s := spanStart st
  let e := spanEnd st
  if s < lines.length ∧ (lines.getD s []).isEmpty ∧ e = s then (lines, st, none)
  else
    let res := toggleLoop (uncommentAllFlag lines s e) e s ⟨lines, st, false⟩
    if res.didModify then
      let beg : Coordinates := ⟨(s : Int), 0⟩
      let stop : Coordinates := ⟨(e : Int), (getLineMaxColumn res.lines tab (e : Int) : Int)⟩
      (res.lines, res.st,
        some { mAdded := getText res.lines tab beg stop, mAddedStart := beg, mAddedEnd := stop,
               mBefore := st, mAfter := res.st })
    else (res.lines, res.st, none)

/-- Editor slice carrying the pieces that the undo protocol touches. -/
structure Editor where
  mLines : List Line
  mState : EditorState
  mUndoBuffer : List UndoRecord
  mUndoIndex : Nat
  mTabSize : Nat
  mReadOnly : Bool
deriving DecidableEq, Repr

/-- AddUndo from the source (Plugin.cpp 308-320): resize the buffer to
index + 1 (truncating abandoned redo records), store the record at the back,
bump the index. -/
def addUndo (ed : Editor) (u : UndoRecord) : Editor :=
  { ed with mUndoBuffer := ed.mUndoBuffer.take ed.mUndoIndex ++ [u],
            mUndoIndex := ed.mUndoIndex + 1 }

/-- ToggleComment at the editor level: apply the line-mode toggle and push the
undo record when one was produced. -/
def Editor.toggleComment (ed : Editor) : Editor :=
  match toggleCommentLM ed.mLines ed.mTabSize ed.mState with
  | (lines2, st2, some u) => addUndo { ed with mLines := lines2, mState := st2 } u
  | (lines2, st2, none) => { ed with mLines := lines2, mState := st2 }

/-- UndoRecord::Undo (Plugin.cpp 2403-2417) acting on the line vector: delete
the added range when added text was recorded, then re-insert the removed text
at its start when removed text was recorded; the editor state is then restored
to mBefore. -/
def undoApplyLines (u : UndoRecord) (tab : Nat) (lines : List Line) : List Line :=
  let l1 := if u.mAdded.isEmpty then lines else deleteRange lines tab u.mAddedStart u.mAddedEnd
  if u.mRemoved.isEmpty then l1 else (insertTextAt l1 tab u.mRemovedStart u.mRemoved).1

/-- One Undo step (Plugin.cpp 1985-1988): no-op at the history boundary or on
a read-only buffer, else replay the record below the index and restore the
before state. -/
def Editor.undoStep (ed : Editor) : Editor :=
  if ¬ed.mReadOnly ∧ 0 < ed.mUndoIndex then
    let u := ed.mUndoBuffer.getD (ed.mUndoIndex - 1) {}
    { ed with mLines := undoApplyLines u ed.mTabSize ed.mLines, mState := u.mBefore,
              mUndoIndex := ed.mUndoIndex - 1 }
  else ed

/-- The C1 failing input: document "abc", cursor and selection at (0,0), empty
undo history, tab size 4, writable. -/
def c1Editor : Editor :=
  ⟨[[97, 98, 99]], ⟨⟨0, 0⟩, ⟨0, 0⟩, ⟨0, 0⟩⟩, [], 0, 4, false⟩

/-- Lua language definition single-line comment bytes "--"
(Plugin.cpp 3099). -/
def luaSingleLineComment : List Nat := [45, 45]

/-- SetText from the source (Plugin.cpp 1102-1122) restricted to the line
buffer: clear, push one empty line, then append bytes, starting a new line on
each newline byte and silently dropping carriage returns. -/
def setTextFold (acc : List Line) : List Nat → List Line
  | [] => acc
  | c :: rest =>
    if c = 13 then setTextFold acc rest
    else if c = 10 then setTextFold (acc ++ [[]]) rest
    else setTextFold (acc.dropLast ++ [(acc.getLast?.getD []) ++ [c]]) rest

def setText (aText : List Nat) : List Line := setTextFold [[]] aText

/-- RemoveLine(int) on the line vector (Plugin.cpp 574-599); the source
asserts mLines.size() > 1 before erasing. -/
def removeLineAt (lines : List Line) (aIndex : Nat) : List Line :=
  lines.eraseIdx aIndex

/-- Modelled from the spec: the error-marker side table is a map from line
index to message (std::map with int keys: insertion keeps the existing entry
on key collision, iteration is in ascending key order). -/
abbrev ErrorMarkers := List (Int × String)

/-- The std::map insert of the renumbering loops: keep the existing entry
when the key is already present, else append. -/
def insertMapKeepFirst (m : ErrorMarkers) (kv : Int × String) : ErrorMarkers :=
  if m.any (fun p => decide (p.1 = kv.1)) then m else m ++ [kv]

/-- Error-marker renumbering of RemoveLine(int,int) (Plugin.cpp 551-558):
each key at or past aStart moves down by exactly one, and the entry is
dropped when its shifted key lands inside [aStart, aEnd]. -/
def removeLinesMarkers (M : ErrorMarkers) (aStart aEnd : Int) : ErrorMarkers :=
  M.foldl (fun acc p =>
    if aStart ≤ (if aStart ≤ p.1 then p.1 - 1 else p.1) ∧
        (if aStart ≤ p.1 then p.1 - 1 else p.1) ≤ aEnd then acc
    else insertMapKeepFirst acc (if aStart ≤ p.1 then p.1 - 1 else p.1, p.2)) []

/-- Breakpoint renumbering of RemoveLine(int,int) (Plugin.cpp 560-566): drop
breakpoints with index in [aStart, aEnd] inclusive, shift the survivors at or
past aStart down by exactly one. -/
def removeLinesBreakpoints (B : Finset Int) (aStart aEnd : Int) : Finset Int :=
  (B.filter (fun i => ¬(aStart ≤ i ∧ i ≤ aEnd))).image
    (fun i => if aStart ≤ i then i - 1 else i)

/-- Error-marker renumbering of InsertLine (Plugin.cpp 606-609): keys at or
past aIndex move up by one. -/
def insertLineMarkers (M : ErrorMarkers) (aIndex : Int) : ErrorMarkers :=
  M.foldl (fun acc p =>
    insertMapKeepFirst acc (if aIndex ≤ p.1 then p.1 + 1 else p.1, p.2)) []

/-- Breakpoint renumbering of InsertLine (Plugin.cpp 611-614). -/
def insertLineBreakpoints (B : Finset Int) (aIndex : Int) : Finset Int :=
  B.image (fun i => if aIndex ≤ i then i + 1 else i)

/-- The same marker renumbering written as a filterMap, the form the amended
claim is stated against (identical to the fold whenever no two surviving
entries collide on a key). -/
def removeLinesMarkersPure (M : ErrorMarkers) (aStart aEnd : Int) : ErrorMarkers :=
  M.filterMap (fun p =>
    if aStart ≤ (if aStart ≤ p.1 then p.1 - 1 else p.1) ∧
        (if aStart ≤ p.1 then p.1 - 1 else p.1) ≤ aEnd then none
    else some (if aStart ≤ p.1 then p.1 - 1 else p.1, p.2))

def insertLineMarkersPure (M : ErrorMarkers) (aIndex : Int) : ErrorMarkers :=
  M.map (fun p => (if aIndex ≤ p.1 then p.1 + 1 else p.1, p.2))

/-- Modelled from the spec claim: removal of [start, end) drops exactly the
breakpoints strictly inside the removed range and shifts later survivors down
by the number of removed lines. -/
def specRemoveLinesBreakpoints (B : Finset Int) (s e : Int) : Finset Int :=
  (B.filter (fun i => ¬(s ≤ i ∧ i < e))).image
    (fun i => if e ≤ i then i - (e - s) else i)

set_option maxRecDepth 8192

theorem UTF8CharLength_pos (c : Nat) : 0 < UTF8CharLength c := by
  unfold UTF8CharLength
  repeat' split
  all_goals omega

/-- Evaluation lemmas for the byte values used in concrete runs (simp does
not reduce Nat bitwise masks in this toolchain). -/
theorem utf8len_tab : UTF8CharLength 9 = 1 := by decide

theorem utf8len_nl : UTF8CharLength 10 = 1 := by decide

theorem utf8len_space : UTF8CharLength 32 = 1 := by decide

theorem utf8len_dash : UTF8CharLength 45 = 1 := by decide

theorem utf8len_slash : UTF8CharLength 47 = 1 := by decide

theorem utf8len_a : UTF8CharLength 97 = 1 := by decide

theorem utf8len_b : UTF8CharLength 98 = 1 := by decide

theorem utf8len_c : UTF8CharLength 99 = 1 := by decide

/-- C3 counterexample: the claimed pattern table disagrees with the source at
the bytes 0xFC (source length 6, claimed length 1) and 0xFE (source length 1,
claimed length 6). -/
theorem C3_counterexample :
    UTF8CharLength 0xFC = 6 ∧ specUTF8CharLength 0xFC = 1 ∧
    UTF8CharLength 0xFE = 1 ∧ specUTF8CharLength 0xFE = 6 := by
  decide

/-- C3 amended: for every byte value, the UTF-8 length function returns 6
exactly on bit pattern 1111110x, 5 on 111110xx, 4 on 11110xxx, 3 on 1110xxxx,
2 on 110xxxxx, and 1 otherwise. -/
theorem C3_amended_utf8_length (c : Fin 256) :
    UTF8CharLength c.val = amendedUTF8CharLength c.val := by
  revert c
  decide

/-- C8 confirmed: coordinate sanitization is idempotent for every buffer, tab
size and coordinate, including negative and oversized lines and columns. -/
theorem C8_sanitize_idempotent (lines : List Line) (tab : Nat) (a : Coordinates) :
    sanitizeCoordinates lines tab (sanitizeCoordinates lines tab a) =
      sanitizeCoordinates lines tab a := by
  by_cases hempty : lines.length = 0
  · by_cases hl : (lines.length : Int) ≤ a.mLine
    · simp only [sanitizeCoordinates, if_pos hl, if_pos hempty]
      simp [hempty]
    · simp only [sanitizeCoordinates, if_neg hl, if_pos hempty]
  · by_cases hl : (lines.length : Int) ≤ a.mLine
    · simp only [sanitizeCoordinates, if_pos hl, if_neg hempty]
      have hlt : ¬ ((lines.length : Int) ≤ (lines.length : Int) - 1) := by omega
      simp only [if_neg hlt, if_neg hempty, min_self]
    · simp only [sanitizeCoordinates, if_neg hl, if_neg hempty]
      rw [min_assoc, min_self]

theorem charIndexLoopChecked_eq (line : Line) (tab : Nat) (htab : tab ≠ 0)
    (col c i : Nat) :
    charIndexLoopChecked line tab col c i = some (charIndexLoop line tab col c i) := by
  rw [charIndexLoopChecked, charIndexLoop]
  split
  · rename_i h
    by_cases h9 : line.getD i 0 = 9
    · simp only [if_pos h9, if_neg htab]
      exact charIndexLoopChecked_eq line tab htab col _ _
    · simp only [if_neg h9]
      exact charIndexLoopChecked_eq line tab htab col _ _
  · rfl
termination_by line.length - i
decreasing_by
  all_goals
    have : 0 < UTF8CharLength (line.getD i 0) := by
      unfold UTF8CharLength
      repeat' split
      all_goals omega
    omega

theorem charColLoopChecked_eq (line : Line) (tab : Nat) (htab : tab ≠ 0)
    (aIndex : Int) (col i : Nat) :
    charColLoopChecked line tab aIndex col i = some (charColLoop line tab aIndex col i) := by
  rw [charColLoopChecked, charColLoop]
  split
  · rename_i h
    by_cases h9 : line.getD i 0 = 9
    · simp only [if_pos h9, if_neg htab]
      exact charColLoopChecked_eq line tab htab aIndex _ _
    · simp only [if_neg h9]
      exact charColLoopChecked_eq line tab htab aIndex _ _
  · rfl
termination_by line.length - i
decreasing_by
  all_goals
    have : 0 < UTF8CharLength (line.getD i 0) := by
      unfold UTF8CharLength
      repeat' split
      all_goals omega
    omega

theorem lineMaxColLoopChecked_eq (line : Line) (tab : Nat) (htab : tab ≠ 0)
    (col i : Nat) :
    lineMaxColLoopChecked line tab col i = some (lineMaxColLoop line tab col i) := by
  rw [lineMaxColLoopChecked, lineMaxColLoop]
  split
  · rename_i h
    by_cases h9 : line.getD i 0 = 9
    · simp only [if_pos h9, if_neg htab]
      exact lineMaxColLoopChecked_eq line tab htab _ _
    · simp only [if_neg h9]
      exact lineMaxColLoopChecked_eq line tab htab _ _
  · rfl
termination_by line.length - i
decreasing_by
  all_goals
    have : 0 < UTF8CharLength (line.getD i 0) := by
      unfold UTF8CharLength
      repeat' split
      all_goals omega
    omega

/-- C10 counterexample: setTabSize accepts 0 (the clamp range is 0..32
inclusive), and with tab size 0 every one of the three walks hits the
division by zero on a line holding a tab character (byte 9). -/
theorem C10_counterexample :
    setTabSize 0 = 0 ∧
    lineMaxColLoopChecked [9] 0 0 0 = none ∧
    charIndexLoopChecked [9] 0 1 0 0 = none ∧
    charColLoopChecked [9] 0 1 0 0 = none := by
  refine ⟨rfl, ?_, ?_, ?_⟩ <;>
    simp [lineMaxColLoopChecked, charIndexLoopChecked, charColLoopChecked, utf8len_tab]

/-- C10 amended: for every tab size accepted by setTabSize that is at least 1
(the clamp range 0..32 does admit 0, for which a line containing a tab
divides by zero), the tab-stop rounding in the characterIndex,
characterColumn and lineMaxColumn walks never divides by zero: the
instrumented walks return exactly the uninstrumented results. -/
theorem C10_amended_no_div_by_zero (v : Int) (hv : 1 ≤ setTabSize v)
    (line : Line) (colTarget : Nat) (aIndex : Int) (col c i : Nat) :
    charIndexLoopChecked line (setTabSize v).toNat colTarget c i =
      some (charIndexLoop line (setTabSize v).toNat colTarget c i) ∧
    charColLoopChecked line (setTabSize v).toNat aIndex col i =
      some (charColLoop line (setTabSize v).toNat aIndex col i) ∧
    lineMaxColLoopChecked line (setTabSize v).toNat col i =
      some (lineMaxColLoop line (setTabSize v).toNat col i) := by
  have htab : (setTabSize v).toNat ≠ 0 := by
    unfold setTabSize at hv ⊢
    omega
  exact ⟨charIndexLoopChecked_eq line _ htab colTarget c i,
    charColLoopChecked_eq line _ htab aIndex col i,
    lineMaxColLoopChecked_eq line _ htab col i⟩

theorem C10_amended_witness :
    1 ≤ setTabSize 4 ∧
    charIndexLoopChecked [9, 97] (setTabSize 4).toNat 5 0 0 =
      some (charIndexLoop [9, 97] (setTabSize 4).toNat 5 0 0) ∧
    charColLoopChecked [9, 97] (setTabSize 4).toNat 2 0 0 =
      some (charColLoop [9, 97] (setTabSize 4).toNat 2 0 0) ∧
    lineMaxColLoopChecked [9, 97] (setTabSize 4).toNat 0 0 =
      some (lineMaxColLoop [9, 97] (setTabSize 4).toNat 0 0) :=
  ⟨by decide, C10_amended_no_div_by_zero 4 (by decide) [9, 97] 5 2 0 0 0⟩

theorem tabStep_lt (c tab : Nat) (htab : 1 ≤ tab) : c < (c / tab) * tab + tab := by
  have h1 := Nat.div_add_mod c tab
  rw [Nat.mul_comm] at h1
  have h2 : c % tab < tab := Nat.mod_lt c (by omega)
  omega

theorem lineColumns_ge (line : Line) (tab : Nat) (htab : 1 ≤ tab)
    (col i x : Nat) (hx : x ∈ lineColumns line tab col i) : col ≤ x := by
  rw [lineColumns] at hx
  split at hx
  · rename_i h
    rcases List.mem_cons.mp hx with h1 | h1
    · omega
    · have hrec := lineColumns_ge line tab htab _ _ _ h1
      by_cases h9 : line.getD i 0 = 9
      · rw [if_pos h9] at hrec
        have := tabStep_lt col tab htab
        omega
      · rw [if_neg h9] at hrec
        omega
  · have h1 := List.mem_singleton.mp hx
    omega
termination_by line.length - i
decreasing_by
  have : 0 < UTF8CharLength (line.getD i 0) := by
    unfold UTF8CharLength
    repeat' split
    all_goals omega
  omega

theorem charIndexLoop_ge (line : Line) (tab : Nat) (col : Nat)
    (c i : Nat) : i ≤ charIndexLoop line tab col c i := by
  rw [charIndexLoop]
  split
  · rename_i h
    have hrec := charIndexLoop_ge line tab col
      (if line.getD i 0 = 9 then (c / tab) * tab + tab else c + 1)
      (i + UTF8CharLength (line.getD i 0))
    omega
  · omega
termination_by line.length - i
decreasing_by
  have : 0 < UTF8CharLength (line.getD i 0) := by
    unfold UTF8CharLength
    repeat' split
    all_goals omega
  omega

/-- Key inverse lemma: walking the byte budget produced by the column-to-index
walk recovers exactly the column, whenever that column is realized by the
line walk (tab size at least 1). -/
theorem charColLoop_charIndexLoop (line : Line) (tab : Nat) (htab : 1 ≤ tab)
    (c i x : Nat) (hx : x ∈ lineColumns line tab c i) :
    charColLoop line tab ((charIndexLoop line tab x c i : Int)) c i = x := by
  rw [lineColumns] at hx
  by_cases hlen : i < line.length
  · rw [dif_pos hlen] at hx
    rcases List.mem_cons.mp hx with hxc | hxrest
    · -- the walk already sits on the target column
      subst hxc
      rw [charIndexLoop]
      rw [dif_neg (by omega)]
      rw [charColLoop]
      rw [dif_neg (by omega)]
    · -- the target column lies strictly further along the walk
      have hstep : c < (if line.getD i 0 = 9 then (c / tab) * tab + tab else c + 1) := by
        split
        · exact tabStep_lt c tab htab
        · omega
      have hge := lineColumns_ge line tab htab _ _ _ hxrest
      have hcx : c < x := by omega
      rw [charIndexLoop, dif_pos ⟨hlen, hcx⟩]
      have hrec := charColLoop_charIndexLoop line tab htab
        (if line.getD i 0 = 9 then (c / tab) * tab + tab else c + 1)
        (i + UTF8CharLength (line.getD i 0)) x hxrest
      have hJ := charIndexLoop_ge line tab x
        (if line.getD i 0 = 9 then (c / tab) * tab + tab else c + 1)
        (i + UTF8CharLength (line.getD i 0))
      have hpos := UTF8CharLength_pos (line.getD i 0)
      rw [charColLoop, dif_pos ⟨by exact_mod_cast by omega, hlen⟩]
      exact hrec
  · rw [dif_neg hlen] at hx
    have hxc := List.mem_singleton.mp hx
    subst hxc
    rw [charIndexLoop, dif_neg (by omega)]
    rw [charColLoop, dif_neg (by omega)]
termination_by line.length - i
decreasing_by
  have : 0 < UTF8CharLength (line.getD i 0) := by
    unfold UTF8CharLength
    repeat' split
    all_goals omega
  omega

/-- C9 confirmed: for every buffer, positive tab size, line of the buffer and
valid column of that line (one realized by the display-column walk, the
source notion of a reachable cursor column), converting the coordinate to a
character index and back recovers the column. -/
theorem C9_index_inverse (lines : List Line) (tab : Nat) (htab : 1 ≤ tab)
    (l : Nat) (hl : l < lines.length) (col : Nat)
    (hcol : col ∈ lineColumns (lines.getD l []) tab 0 0) :
    getCharacterColumn lines tab (l : Int)
      (getCharacterIndex lines tab ⟨(l : Int), (col : Int)⟩) = col := by
  have hrange : ¬ (((l : Int)) < 0 ∨ (lines.length : Int) ≤ (l : Int)) := by
    push_neg
    constructor
    · omega
    · exact_mod_cast hl
  rw [getCharacterIndex, if_neg hrange]
  rw [getCharacterColumn, if_neg hrange]
  have : ((⟨(l : Int), (col : Int)⟩ : Coordinates).mColumn).toNat = col := by
    simp
  rw [this]
  exact charColLoop_charIndexLoop (lines.getD (l : Int).toNat []) tab htab 0 0 col
    (by simpa using hcol)

theorem C9_index_inverse_witness :
    1 ≤ 4 ∧ 0 < [[97, 9, 98]].length ∧
    4 ∈ lineColumns ([[97, 9, 98]].getD 0 []) 4 0 0 ∧
    getCharacterColumn [[97, 9, 98]] 4 ((0 : Nat) : Int)
      (getCharacterIndex [[97, 9, 98]] 4 ⟨((0 : Nat) : Int), ((4 : Nat) : Int)⟩) = 4 :=
  ⟨by decide, by decide,
    by simp [lineColumns, utf8len_tab, utf8len_a, utf8len_b],
    C9_index_inverse [[97, 9, 98]] 4 (by decide) 0 (by decide) 4
      (by simp [lineColumns, utf8len_tab, utf8len_a, utf8len_b])⟩

/-- C2 counterexample: with a custom tokenizer and 20 dirty lines the source
consumes all 20 in one step (increment 10000), while the claim says the batch
is min(10, 20) = 10; with no tokenizer and 20 dirty lines the source consumes
10, while the claim says 20.  The claimed sizes are swapped. -/
theorem C2_counterexample :
    colorizeBatch true 0 20 = 20 ∧ specColorizeBatch true 20 = 10 ∧
    colorizeBatch false 0 20 = 10 ∧ specColorizeBatch false 20 = 20 ∧
    colorizeBatch true 0 20 ≠ specColorizeBatch true 20 := by
  refine ⟨rfl, rfl, rfl, rfl, ?_⟩
  decide

/-- C2 amended: each step processes min(10, remaining) dirty lines when the
language has no custom tokenizer (regex-only) and min(10000, remaining) when
it has one; rangeMin advances to the batch end, and when the dirty window
closes the interval resets to the sentinel (10000, 0). -/
theorem C2_amended_colorize_step (hasTokenize : Bool) (rangeMin rangeMax : Nat)
    (h : rangeMin < rangeMax) :
    colorizeBatch hasTokenize rangeMin rangeMax =
      (if hasTokenize then min 10000 (rangeMax - rangeMin) else min 10 (rangeMax - rangeMin)) ∧
    colorizeStep hasTokenize rangeMin rangeMax =
      (if rangeMin + colorizeBatch hasTokenize rangeMin rangeMax = rangeMax then (10000, 0)
       else (rangeMin + colorizeBatch hasTokenize rangeMin rangeMax, rangeMax)) := by
  constructor
  · unfold colorizeBatch colorizeIncrement
    cases hasTokenize <;> simp only [if_true, if_false, Bool.false_eq_true, reduceIte] <;> omega
  · simp only [colorizeStep, colorizeBatch]
    rw [if_pos h]
    have hmin : rangeMin + (min (rangeMin + colorizeIncrement hasTokenize) rangeMax - rangeMin)
        = min (rangeMin + colorizeIncrement hasTokenize) rangeMax := by
      omega
    rw [hmin]
    by_cases hc : min (rangeMin + colorizeIncrement hasTokenize) rangeMax = rangeMax
    · rw [if_pos hc.symm, if_pos hc]
    · rw [if_neg (fun hh => hc hh.symm), if_neg hc]

theorem C2_amended_witness :
    0 < 25 ∧
    colorizeBatch false 0 25 =
      (if false then min 10000 (25 - 0) else min 10 (25 - 0)) ∧
    colorizeStep false 0 25 =
      (if 0 + colorizeBatch false 0 25 = 25 then (10000, 0)
       else (0 + colorizeBatch false 0 25, 25)) :=
  ⟨by decide, C2_amended_colorize_step false 0 25 (by decide)⟩

/-- C1 evaluation at the failing input: a line-mode comment toggle on "abc"
yields "//abc", but one Undo then leaves the buffer holding a single empty
line (getText "\n") instead of restoring "abc\n": the toggle records only the
after-image in mAdded and leaves mRemoved empty, so Undo deletes the added
range and re-inserts nothing.  The editor state is restored to the before
state. -/
theorem C1_toggle_undo_eval :
    getTextFull c1Editor.mLines c1Editor.mTabSize = [97, 98, 99, 10] ∧
    getTextFull c1Editor.toggleComment.mLines 4 = [47, 47, 97, 98, 99, 10] ∧
    getTextFull c1Editor.toggleComment.undoStep.mLines 4 = [10] ∧
    c1Editor.toggleComment.undoStep.mState = c1Editor.mState ∧
    getTextFull c1Editor.toggleComment.undoStep.mLines 4 ≠
      getTextFull c1Editor.mLines c1Editor.mTabSize := by
  have htoggle : c1Editor.toggleComment =
      ⟨[[47, 47, 97, 98, 99]], ⟨⟨0, 2⟩, ⟨0, 2⟩, ⟨0, 2⟩⟩,
        [{ mAdded := [47, 47, 97, 98, 99], mAddedStart := ⟨0, 0⟩, mAddedEnd := ⟨0, 5⟩,
           mBefore := ⟨⟨0, 0⟩, ⟨0, 0⟩, ⟨0, 0⟩⟩, mAfter := ⟨⟨0, 2⟩, ⟨0, 2⟩, ⟨0, 2⟩⟩ }],
        1, 4, false⟩ := by
    simp [c1Editor, Editor.toggleComment, toggleCommentLM, spanStart, spanEnd,
      uncommentAllFlag, lineStartsSlashes, firstNonWS, isspaceB, toggleLoop, stateAdd,
      bumpAdd, stateSub, bumpSub, commentLine, uncommentLine, getLineMaxColumn,
      lineMaxColLoop, getText, getTextLoop, getCharacterIndex,
      charIndexLoop, addUndo, utf8len_a, utf8len_b, utf8len_c, utf8len_slash]
  have hundo : c1Editor.toggleComment.undoStep =
      ⟨[[]], ⟨⟨0, 0⟩, ⟨0, 0⟩, ⟨0, 0⟩⟩,
        [{ mAdded := [47, 47, 97, 98, 99], mAddedStart := ⟨0, 0⟩, mAddedEnd := ⟨0, 5⟩,
           mBefore := ⟨⟨0, 0⟩, ⟨0, 0⟩, ⟨0, 0⟩⟩, mAfter := ⟨⟨0, 2⟩, ⟨0, 2⟩, ⟨0, 2⟩⟩ }],
        0, 4, false⟩ := by
    rw [htoggle]
    simp [Editor.undoStep, undoApplyLines, deleteRange, getCharacterIndex, charIndexLoop,
      getLineMaxColumn, lineMaxColLoop, utf8len_a, utf8len_b, utf8len_c, utf8len_slash]
  refine ⟨?_, ?_, ?_, ?_, ?_⟩
  · simp [c1Editor, getTextFull, getText, getTextLoop, getCharacterIndex, charIndexLoop,
      utf8len_a, utf8len_b, utf8len_c]
  · rw [htoggle]
    simp [getTextFull, getText, getTextLoop, getCharacterIndex, charIndexLoop,
      utf8len_a, utf8len_b, utf8len_c, utf8len_slash]
  · rw [hundo]
    simp [getTextFull, getText, getTextLoop, getCharacterIndex, charIndexLoop]
  · rw [hundo]
    rfl
  · rw [hundo]
    have h1 : getTextFull ([[]] : List Line) 4 = [10] := by
      simp [getTextFull, getText, getTextLoop, getCharacterIndex, charIndexLoop]
    have h2 : getTextFull c1Editor.mLines c1Editor.mTabSize = [97, 98, 99, 10] := by
      simp [c1Editor, getTextFull, getText, getTextLoop, getCharacterIndex, charIndexLoop,
        utf8len_a, utf8len_b, utf8len_c]
    rw [h1, h2]
    decide

theorem isspaceB_slash : isspaceB 47 = false := by decide

theorem firstNonWS_le (l : Line) : firstNonWS l ≤ l.length := by
  induction l with
  | nil => simp [firstNonWS]
  | cons c rest ih =>
    simp only [firstNonWS, List.length_cons]
    split <;> omega

theorem firstNonWS_commentLine (l : Line) : firstNonWS (commentLine l) = firstNonWS l := by
  induction l with
  | nil =>
    simp [commentLine, firstNonWS, isspaceB_slash]
  | cons c rest ih =>
    by_cases hc : isspaceB c
    · have hn : firstNonWS (c :: rest) = firstNonWS rest + 1 := by
        simp [firstNonWS, hc]
      have hcl : commentLine (c :: rest) = c :: commentLine rest := by
        simp [commentLine, hn, List.take_succ_cons, List.drop_succ_cons]
      rw [hcl, hn]
      simp [firstNonWS, hc, ih]
    · have hn : firstNonWS (c :: rest) = 0 := by
        simp [firstNonWS, hc]
      have hcl : commentLine (c :: rest) = 47 :: 47 :: c :: rest := by
        simp [commentLine, hn]
      rw [hcl, hn]
      simp [firstNonWS, isspaceB_slash]

theorem commentLine_length (l : Line) : (commentLine l).length = l.length + 2 := by
  have h := firstNonWS_le l
  simp [commentLine]
  omega

theorem commentLine_getD_n (l : Line) : (commentLine l).getD (firstNonWS l) 0 = 47 := by
  have h := firstNonWS_le l
  have hlen : (l.take (firstNonWS l)).length = firstNonWS l := by
    simp [h]
  unfold commentLine
  rw [List.append_assoc, List.getD_eq_getElem?_getD,
    List.getElem?_append_right (by omega), hlen]
  simp

theorem commentLine_getD_n1 (l : Line) : (commentLine l).getD (firstNonWS l + 1) 0 = 47 := by
  have h := firstNonWS_le l
  have hlen : (l.take (firstNonWS l)).length = firstNonWS l := by
    simp [h]
  unfold commentLine
  rw [List.append_assoc, List.getD_eq_getElem?_getD,
    List.getElem?_append_right (by omega), hlen]
  have h2 : firstNonWS l + 1 - firstNonWS l = 1 := by omega
  rw [h2]
  simp

theorem lineStartsSlashes_commentLine (l : Line) :
    lineStartsSlashes (commentLine l) = true := by
  have h := firstNonWS_le l
  unfold lineStartsSlashes
  simp only [firstNonWS_commentLine, commentLine_length, commentLine_getD_n,
    commentLine_getD_n1]
  simp
  omega

theorem uncommentLine_commentLine (l : Line) : uncommentLine (commentLine l) = l := by
  have h := firstNonWS_le l
  have hlen : (l.take (firstNonWS l)).length = firstNonWS l := by
    simp [h]
  have hl2 : (l.take (firstNonWS l) ++ [47, 47]).length = firstNonWS l + 2 := by
    simp [hlen]
  have e1 : List.take (firstNonWS l) (commentLine l) = List.take (firstNonWS l) l := by
    unfold commentLine
    rw [List.take_append_eq_append_take, List.take_append_eq_append_take, hlen, hl2,
      List.take_take, Nat.sub_self, Nat.min_self]
    simp
  have e2 : List.drop (firstNonWS l + 2) (commentLine l) = List.drop (firstNonWS l) l := by
    unfold commentLine
    rw [List.drop_append_eq_append_drop, List.drop_append_eq_append_drop, hlen, hl2,
      Nat.sub_self, List.drop_zero]
    rw [List.drop_eq_nil_of_le (by rw [hlen]; omega)]
    have h3 : firstNonWS l + 2 - firstNonWS l = 2 := by omega
    rw [h3]
    simp
  unfold uncommentLine
  rw [firstNonWS_commentLine, e1, e2, List.take_append_drop]

theorem commentLine_isEmpty (l : Line) : (commentLine l).isEmpty = false := by
  have h := commentLine_length l
  cases hc : commentLine l with
  | nil => rw [hc] at h; simp at h
  | cons a rest => simp

theorem bumpAdd_mLine (a : Coordinates) (idx n : Nat) : (bumpAdd a idx n).mLine = a.mLine := by
  unfold bumpAdd
  split <;> rfl

theorem bumpSub_mLine (a : Coordinates) (idx n : Nat) : (bumpSub a idx n).mLine = a.mLine := by
  unfold bumpSub
  split <;> rfl

theorem toggleLoop_length (u : Bool) (e idx : Nat) (ts : ToggleSt) :
    (toggleLoop u e idx ts).lines.length = ts.lines.length := by
  rw [toggleLoop]
  split
  · rename_i h
    split
    · exact toggleLoop_length u e (idx + 1) ts
    · split
      · split
        · rw [toggleLoop_length u e (idx + 1) _]
          simp
        · exact toggleLoop_length u e (idx + 1) ts
      · rw [toggleLoop_length u e (idx + 1) _]
        simp
  · rfl
termination_by e + 1 - idx
decreasing_by all_goals omega

theorem toggleLoop_st_lines (u : Bool) (e idx : Nat) (ts : ToggleSt) :
    (toggleLoop u e idx ts).st.mCursorPosition.mLine = ts.st.mCursorPosition.mLine ∧
    (toggleLoop u e idx ts).st.mSelectionStart.mLine = ts.st.mSelectionStart.mLine ∧
    (toggleLoop u e idx ts).st.mSelectionEnd.mLine = ts.st.mSelectionEnd.mLine := by
  rw [toggleLoop]
  split
  · rename_i h
    split
    · exact toggleLoop_st_lines u e (idx + 1) ts
    · split
      · split
        · have hrec := toggleLoop_st_lines u e (idx + 1)
            ⟨ts.lines.set idx (uncommentLine (ts.lines.getD idx [])),
              stateSub ts.st idx (firstNonWS (ts.lines.getD idx [])), true⟩
          simpa [stateSub, bumpSub_mLine] using hrec
        · exact toggleLoop_st_lines u e (idx + 1) ts
      · have hrec := toggleLoop_st_lines u e (idx + 1)
          ⟨ts.lines.set idx (commentLine (ts.lines.getD idx [])),
            stateAdd ts.st idx (firstNonWS (ts.lines.getD idx [])), true⟩
        simpa [stateAdd, bumpAdd_mLine] using hrec
  · exact ⟨rfl, rfl, rfl⟩
termination_by e + 1 - idx
decreasing_by all_goals omega

/-- Characterization of the commenting pass: every non-empty span line inside
the buffer is replaced by its commented form; everything else is untouched. -/
theorem toggleLoop_comment_get? (e idx : Nat) (ts : ToggleSt) (j : Nat) :
    (toggleLoop false e idx ts).lines.get? j =
      if idx ≤ j ∧ j ≤ e ∧ (ts.lines.getD j []).isEmpty = false then
        (ts.lines.get? j).map commentLine
      else ts.lines.get? j := by
  rw [toggleLoop]
  by_cases hcond : idx ≤ e ∧ idx < ts.lines.length
  · rw [dif_pos hcond]
    by_cases hemp : (ts.lines.getD idx []).isEmpty
    · rw [if_pos hemp]
      rw [toggleLoop_comment_get? e (idx + 1) ts j]
      by_cases hj : j = idx
      · subst hj
        rw [if_neg (by omega)]
        rw [if_neg (by rintro ⟨h1, h2, h3⟩; rw [h3] at hemp; simp at hemp)]
      · have hiff : (idx + 1 ≤ j ∧ j ≤ e ∧ (ts.lines.getD j []).isEmpty = false) ↔
            (idx ≤ j ∧ j ≤ e ∧ (ts.lines.getD j []).isEmpty = false) := by
          constructor
          · rintro ⟨h1, h2, h3⟩
            exact ⟨by omega, h2, h3⟩
          · rintro ⟨h1, h2, h3⟩
            exact ⟨by omega, h2, h3⟩
        rw [if_congr hiff rfl rfl]
    · rw [if_neg hemp]
      simp only [Bool.false_eq_true, if_false]
      rw [toggleLoop_comment_get? e (idx + 1) _ j]
      simp only
      by_cases hj : j = idx
      · subst hj
        rw [if_neg (by omega)]
        rw [List.get?_set_eq_of_lt _ hcond.2]
        rw [if_pos ⟨le_refl j, hcond.1, by simpa using hemp⟩]
        have hg : ts.lines.get? j = some (ts.lines.getD j []) := by
          rw [List.getD_eq_getD_get?]
          cases hq : ts.lines.get? j with
          | none =>
            rw [List.get?_eq_none] at hq
            omega
          | some v => simp
        rw [hg]
        rfl
      · have hset : (ts.lines.set idx (commentLine (ts.lines.getD idx []))).getD j [] =
            ts.lines.getD j [] := by
          rw [List.getD_eq_getD_get?, List.get?_set_ne _ _ (fun hh => hj hh.symm),
            List.getD_eq_getD_get?]
        rw [hset, List.get?_set_ne _ _ (fun hh => hj hh.symm)]
        have hiff : (idx + 1 ≤ j ∧ j ≤ e ∧ (ts.lines.getD j []).isEmpty = false) ↔
            (idx ≤ j ∧ j ≤ e ∧ (ts.lines.getD j []).isEmpty = false) := by
          constructor
          · rintro ⟨h1, h2, h3⟩
            exact ⟨by omega, h2, h3⟩
          · rintro ⟨h1, h2, h3⟩
            exact ⟨by omega, h2, h3⟩
        rw [if_congr hiff rfl rfl]
  · rw [dif_neg hcond]
    rw [if_neg ?_]
    rintro ⟨h1, h2, h3⟩
    have hlen : ts.lines.length ≤ j := by omega
    rw [List.getD_eq_default _ _ hlen] at h3
    simp at h3
termination_by e + 1 - idx
decreasing_by all_goals omega

/-- Characterization of the uncommenting pass: every non-empty span line
starting with two slashes after its whitespace loses those two bytes;
everything else is untouched. -/
theorem toggleLoop_uncomment_get? (e idx : Nat) (ts : ToggleSt) (j : Nat) :
    (toggleLoop true e idx ts).lines.get? j =
      if idx ≤ j ∧ j ≤ e ∧ (ts.lines.getD j []).isEmpty = false ∧
          lineStartsSlashes (ts.lines.getD j []) = true then
        (ts.lines.get? j).map uncommentLine
      else ts.lines.get? j := by
  rw [toggleLoop]
  by_cases hcond : idx ≤ e ∧ idx < ts.lines.length
  · rw [dif_pos hcond]
    by_cases hemp : (ts.lines.getD idx []).isEmpty
    · rw [if_pos hemp]
      rw [toggleLoop_uncomment_get? e (idx + 1) ts j]
      by_cases hj : j = idx
      · subst hj
        rw [if_neg (by omega)]
        rw [if_neg (by rintro ⟨h1, h2, h3, h4⟩; rw [h3] at hemp; simp at hemp)]
      · have hiff : (idx + 1 ≤ j ∧ j ≤ e ∧ (ts.lines.getD j []).isEmpty = false ∧
              lineStartsSlashes (ts.lines.getD j []) = true) ↔
            (idx ≤ j ∧ j ≤ e ∧ (ts.lines.getD j []).isEmpty = false ∧
              lineStartsSlashes (ts.lines.getD j []) = true) := by
          constructor
          · rintro ⟨h1, h2, h3⟩
            exact ⟨by omega, h2, h3⟩
          · rintro ⟨h1, h2, h3⟩
            exact ⟨by omega, h2, h3⟩
        rw [if_congr hiff rfl rfl]
    · rw [if_neg hemp]
      simp only [if_true]
      by_cases hsl : lineStartsSlashes (ts.lines.getD idx [])
      · rw [if_pos hsl]
        rw [toggleLoop_uncomment_get? e (idx + 1) _ j]
        simp only
        by_cases hj : j = idx
        · subst hj
          rw [if_neg (by omega)]
          rw [List.get?_set_eq_of_lt _ hcond.2]
          rw [if_pos ⟨le_refl j, hcond.1, by simpa using hemp, hsl⟩]
          have hg : ts.lines.get? j = some (ts.lines.getD j []) := by
            rw [List.getD_eq_getD_get?]
            cases hq : ts.lines.get? j with
            | none =>
              rw [List.get?_eq_none] at hq
              omega
            | some v => simp
          rw [hg]
          rfl
        · have hset : (ts.lines.set idx (uncommentLine (ts.lines.getD idx []))).getD j [] =
              ts.lines.getD j [] := by
            rw [List.getD_eq_getD_get?, List.get?_set_ne _ _ (fun hh => hj hh.symm),
              List.getD_eq_getD_get?]
          rw [hset, List.get?_set_ne _ _ (fun hh => hj hh.symm)]
          have hiff : (idx + 1 ≤ j ∧ j ≤ e ∧ (ts.lines.getD j []).isEmpty = false ∧
                lineStartsSlashes (ts.lines.getD j []) = true) ↔
              (idx ≤ j ∧ j ≤ e ∧ (ts.lines.getD j []).isEmpty = false ∧
                lineStartsSlashes (ts.lines.getD j []) = true) := by
            constructor
            · rintro ⟨h1, h2, h3⟩
              exact ⟨by omega, h2, h3⟩
            · rintro ⟨h1, h2, h3⟩
              exact ⟨by omega, h2, h3⟩
          rw [if_congr hiff rfl rfl]
      · rw [if_neg hsl]
        rw [toggleLoop_uncomment_get? e (idx + 1) ts j]
        by_cases hj : j = idx
        · subst hj
          rw [if_neg (by omega)]
          rw [if_neg (by rintro ⟨h1, h2, h3, h4⟩; rw [h4] at hsl; simp at hsl)]
        · have hiff : (idx + 1 ≤ j ∧ j ≤ e ∧ (ts.lines.getD j []).isEmpty = false ∧
                lineStartsSlashes (ts.lines.getD j []) = true) ↔
              (idx ≤ j ∧ j ≤ e ∧ (ts.lines.getD j []).isEmpty = false ∧
                lineStartsSlashes (ts.lines.getD j []) = true) := by
            constructor
            · rintro ⟨h1, h2, h3⟩
              exact ⟨by omega, h2, h3⟩
            · rintro ⟨h1, h2, h3⟩
              exact ⟨by omega, h2, h3⟩
          rw [if_congr hiff rfl rfl]
  · rw [dif_neg hcond]
    rw [if_neg ?_]
    rintro ⟨h1, h2, h3, h4⟩
    have hlen : ts.lines.length ≤ j := by omega
    rw [List.getD_eq_default _ _ hlen] at h3
    simp at h3
termination_by e + 1 - idx
decreasing_by all_goals omega

theorem spanStart_le_spanEnd (st : EditorState) : spanStart st ≤ spanEnd st := by
  unfold spanStart spanEnd
  split
  · exact Int.toNat_le_toNat (min_le_max)
  · exact le_refl _

theorem spanStart_congr (st1 st2 : EditorState)
    (h1 : st1.mCursorPosition.mLine = st2.mCursorPosition.mLine)
    (h2 : st1.mSelectionStart.mLine = st2.mSelectionStart.mLine)
    (h3 : st1.mSelectionEnd.mLine = st2.mSelectionEnd.mLine) :
    spanStart st1 = spanStart st2 := by
  unfold spanStart
  rw [h1, h2, h3]

theorem spanEnd_congr (st1 st2 : EditorState)
    (h1 : st1.mCursorPosition.mLine = st2.mCursorPosition.mLine)
    (h2 : st1.mSelectionStart.mLine = st2.mSelectionStart.mLine)
    (h3 : st1.mSelectionEnd.mLine = st2.mSelectionEnd.mLine) :
    spanEnd st1 = spanEnd st2 := by
  unfold spanEnd
  rw [h1, h2, h3]

theorem toggleCommentLM_parts (lines : List Line) (tab : Nat) (st : EditorState)
    (hno : ¬(spanStart st < lines.length ∧ (lines.getD (spanStart st) []).isEmpty ∧
      spanEnd st = spanStart st)) :
    (toggleCommentLM lines tab st).1 =
      (toggleLoop (uncommentAllFlag lines (spanStart st) (spanEnd st)) (spanEnd st)
        (spanStart st) ⟨lines, st, false⟩).lines ∧
    (toggleCommentLM lines tab st).2.1 =
      (toggleLoop (uncommentAllFlag lines (spanStart st) (spanEnd st)) (spanEnd st)
        (spanStart st) ⟨lines, st, false⟩).st := by
  simp only [toggleCommentLM]
  rw [if_neg hno]
  constructor <;> (split <;> rfl)

/-- Bridge from the get? characterizations to getD form. -/
theorem getD_of_get?_map (L1 L2 : List Line) (j : Nat) (f : Line → Line)
    (h : L1.get? j = (L2.get? j).map f) (hlen : j < L2.length) :
    L1.getD j [] = f (L2.getD j []) := by
  have hg : L2.get? j = some (L2.getD j []) := by
    rw [List.getD_eq_getD_get?]
    cases hq : L2.get? j with
    | none =>
      rw [List.get?_eq_none] at hq
      omega
    | some v => simp
  rw [List.getD_eq_getD_get?, h, hg]
  rfl

theorem getD_of_get?_eq (L1 L2 : List Line) (j : Nat)
    (h : L1.get? j = L2.get? j) :
    L1.getD j [] = L2.getD j [] := by
  rw [List.getD_eq_getD_get?, h, List.getD_eq_getD_get?]

/-- C4 counterexample: with the Lua language definition active (whose
configured single-line-comment marker is "--"), line-mode comment toggling on
the document "abc" inserts the fixed bytes "//", not the configured "--"
marker: ToggleComment never consults the language definition. -/
theorem C4_counterexample :
    (toggleCommentLM [[97, 98, 99]] 4 ⟨⟨0, 0⟩, ⟨0, 0⟩, ⟨0, 0⟩⟩).1 = [[47, 47, 97, 98, 99]] ∧
    (toggleCommentLM [[97, 98, 99]] 4 ⟨⟨0, 0⟩, ⟨0, 0⟩, ⟨0, 0⟩⟩).1 ≠
      [luaSingleLineComment ++ [97, 98, 99]] := by
  have h1 : (toggleCommentLM [[97, 98, 99]] 4 ⟨⟨0, 0⟩, ⟨0, 0⟩, ⟨0, 0⟩⟩).1 =
      [[47, 47, 97, 98, 99]] := by
    simp [toggleCommentLM, spanStart, spanEnd, uncommentAllFlag, lineStartsSlashes,
      firstNonWS, isspaceB, toggleLoop, stateAdd, bumpAdd, commentLine, uncommentLine,
      getLineMaxColumn, lineMaxColLoop, getText, getTextLoop, getCharacterIndex,
      charIndexLoop, utf8len_a, utf8len_b, utf8len_c, utf8len_slash]
  refine ⟨h1, ?_⟩
  rw [h1]
  decide

/-- C4 amended: line-mode comment toggling uses the fixed marker "//"
regardless of the active language definition (Lua configures "--", which is
ignored).  When it comments, it inserts the two slash bytes immediately after
the leading whitespace of every non-empty line of the span; and it uncomments
only when every non-empty line of the span begins, after leading whitespace,
with those two slash bytes. -/
theorem C4_amended_fixed_marker (lines : List Line) (tab : Nat) (st : EditorState) :
    (uncommentAllFlag lines (spanStart st) (spanEnd st) = false →
      ¬(spanStart st < lines.length ∧ (lines.getD (spanStart st) []).isEmpty ∧
          spanEnd st = spanStart st) →
      ∀ j, (toggleCommentLM lines tab st).1.get? j =
        if spanStart st ≤ j ∧ j ≤ spanEnd st ∧ (lines.getD j []).isEmpty = false then
          (lines.get? j).map commentLine
        else lines.get? j) ∧
    (uncommentAllFlag lines (spanStart st) (spanEnd st) = true →
      ∀ j, spanStart st ≤ j → j ≤ spanEnd st → j < lines.length →
        (lines.getD j []).isEmpty = false →
        lineStartsSlashes (lines.getD j []) = true) := by
  constructor
  · intro hflag hno j
    have hparts := toggleCommentLM_parts lines tab st hno
    rw [hparts.1, hflag]
    exact toggleLoop_comment_get? (spanEnd st) (spanStart st) ⟨lines, st, false⟩ j
  · intro hflag j hsj hje hjlen hne
    unfold uncommentAllFlag at hflag
    by_cases hs : spanStart st < lines.length
    · rw [if_pos hs, Bool.and_eq_true] at hflag
      have hall := hflag.2
      rw [List.all_eq_true] at hall
      have hmem : j ∈ List.range' (spanStart st)
          (min (spanEnd st + 1) lines.length - spanStart st) := by
        rw [List.mem_range'_1]
        omega
      have hj := hall j hmem
      rw [Bool.or_eq_true] at hj
      rcases hj with hj | hj
      · rw [hne] at hj
        simp at hj
      · exact hj
    · rw [if_neg hs] at hflag
      simp at hflag

theorem C4_amended_witness :
    ((toggleCommentLM [[97, 98, 99]] 4 ⟨⟨0, 0⟩, ⟨0, 0⟩, ⟨0, 0⟩⟩).1.get? 0 =
      if spanStart ⟨⟨0, 0⟩, ⟨0, 0⟩, ⟨0, 0⟩⟩ ≤ 0 ∧ 0 ≤ spanEnd ⟨⟨0, 0⟩, ⟨0, 0⟩, ⟨0, 0⟩⟩ ∧
          (([[97, 98, 99]] : List Line).getD 0 []).isEmpty = false then
        (([[97, 98, 99]] : List Line).get? 0).map commentLine
      else ([[97, 98, 99]] : List Line).get? 0) ∧
    lineStartsSlashes (([[47, 47, 97]] : List Line).getD 0 []) = true :=
  ⟨(C4_amended_fixed_marker [[97, 98, 99]] 4 ⟨⟨0, 0⟩, ⟨0, 0⟩, ⟨0, 0⟩⟩).1 (by decide)
      (by decide) 0,
    (C4_amended_fixed_marker [[47, 47, 97]] 4 ⟨⟨0, 0⟩, ⟨0, 0⟩, ⟨0, 0⟩⟩).2 (by decide) 0
      (by decide) (by decide) (by decide) (by decide)⟩

/-- C5 counterexample: when the first line of the span is empty, toggling
twice does not restore the text.  On the two-line document ["", "a"] with the
selection spanning both lines, the first toggle comments line 1 to "//a"; the
second toggle inspects the (empty) first line, decides to comment again, and
yields "////a" instead of restoring "a". -/
theorem C5_counterexample :
    (toggleCommentLM (toggleCommentLM [[], [97]] 4 ⟨⟨0, 0⟩, ⟨0, 0⟩, ⟨1, 1⟩⟩).1 4
        (toggleCommentLM [[], [97]] 4 ⟨⟨0, 0⟩, ⟨0, 0⟩, ⟨1, 1⟩⟩).2.1).1 =
      [[], [47, 47, 47, 47, 97]] ∧
    ([[], [47, 47, 47, 47, 97]] : List Line) ≠ [[], [97]] := by
  have h1 : (toggleCommentLM [[], [97]] 4 ⟨⟨0, 0⟩, ⟨0, 0⟩, ⟨1, 1⟩⟩).1 = [[], [47, 47, 97]] := by
    simp [toggleCommentLM, spanStart, spanEnd, uncommentAllFlag, lineStartsSlashes,
      firstNonWS, isspaceB, toggleLoop, stateAdd, bumpAdd, commentLine, uncommentLine,
      getLineMaxColumn, lineMaxColLoop, getText, getTextLoop, getCharacterIndex,
      charIndexLoop, utf8len_a, utf8len_slash]
  have h2 : (toggleCommentLM [[], [97]] 4 ⟨⟨0, 0⟩, ⟨0, 0⟩, ⟨1, 1⟩⟩).2.1 =
      ⟨⟨0, 0⟩, ⟨0, 0⟩, ⟨1, 3⟩⟩ := by
    simp [toggleCommentLM, spanStart, spanEnd, uncommentAllFlag, lineStartsSlashes,
      firstNonWS, isspaceB, toggleLoop, stateAdd, bumpAdd, commentLine, uncommentLine,
      getLineMaxColumn, lineMaxColLoop, getText, getTextLoop, getCharacterIndex,
      charIndexLoop, utf8len_a, utf8len_slash]
  rw [h1, h2]
  constructor
  · simp [toggleCommentLM, spanStart, spanEnd, uncommentAllFlag, lineStartsSlashes,
      firstNonWS, isspaceB, toggleLoop, stateAdd, bumpAdd, commentLine, uncommentLine,
      getLineMaxColumn, lineMaxColLoop, getText, getTextLoop, getCharacterIndex,
      charIndexLoop, utf8len_a, utf8len_slash]
  · decide

/-- C5 amended: line-mode comment toggling followed by a second toggle
restores the text exactly, provided the first line of the span is non-empty
(the counterexample shows an empty first span line breaks the round trip) and
the first toggle takes the commenting path; the concrete "abc" scenario with
selection (0,0)-(0,3) and cursor (0,3) yields "//abc" with the cursor and
selection columns shifted by two, and a second toggle restores "abc" with the
original columns. -/
theorem C5_comment_uncomment_roundtrip (lines : List Line) (tab : Nat) (st : EditorState)
    (hs : spanStart st < lines.length)
    (hne : (lines.getD (spanStart st) []).isEmpty = false)
    (hflag : uncommentAllFlag lines (spanStart st) (spanEnd st) = false) :
    (toggleCommentLM (toggleCommentLM lines tab st).1 tab
        (toggleCommentLM lines tab st).2.1).1 = lines ∧
    (toggleCommentLM [[97, 98, 99]] 4 ⟨⟨0, 3⟩, ⟨0, 0⟩, ⟨0, 3⟩⟩).1 = [[47, 47, 97, 98, 99]] ∧
    (toggleCommentLM [[97, 98, 99]] 4 ⟨⟨0, 3⟩, ⟨0, 0⟩, ⟨0, 3⟩⟩).2.1 =
      ⟨⟨0, 5⟩, ⟨0, 2⟩, ⟨0, 5⟩⟩ ∧
    (toggleCommentLM [[47, 47, 97, 98, 99]] 4 ⟨⟨0, 5⟩, ⟨0, 2⟩, ⟨0, 5⟩⟩).1 = [[97, 98, 99]] ∧
    (toggleCommentLM [[47, 47, 97, 98, 99]] 4 ⟨⟨0, 5⟩, ⟨0, 2⟩, ⟨0, 5⟩⟩).2.1 =
      ⟨⟨0, 3⟩, ⟨0, 0⟩, ⟨0, 3⟩⟩ := by
  refine ⟨?_, ?_, ?_, ?_, ?_⟩
  · have hse : spanStart st ≤ spanEnd st := spanStart_le_spanEnd st
    have hearly1 : ¬(spanStart st < lines.length ∧ (lines.getD (spanStart st) []).isEmpty ∧
        spanEnd st = spanStart st) := by
      rintro ⟨h1, h2, h3⟩
      rw [hne] at h2
      simp at h2
    obtain ⟨hp1, hp2⟩ := toggleCommentLM_parts lines tab st hearly1
    rw [hflag] at hp1 hp2
    have hlen1 : (toggleLoop false (spanEnd st) (spanStart st) ⟨lines, st, false⟩).lines.length
        = lines.length := toggleLoop_length false (spanEnd st) (spanStart st) ⟨lines, st, false⟩
    have hget1 := toggleLoop_comment_get? (spanEnd st) (spanStart st) ⟨lines, st, false⟩
    have hstf := toggleLoop_st_lines false (spanEnd st) (spanStart st) ⟨lines, st, false⟩
    have hspanS : spanStart (toggleLoop false (spanEnd st) (spanStart st)
        ⟨lines, st, false⟩).st = spanStart st :=
      spanStart_congr _ st hstf.1 hstf.2.1 hstf.2.2
    have hspanE : spanEnd (toggleLoop false (spanEnd st) (spanStart st)
        ⟨lines, st, false⟩).st = spanEnd st :=
      spanEnd_congr _ st hstf.1 hstf.2.1 hstf.2.2
    have hgetD1 : ∀ j, (toggleLoop false (spanEnd st) (spanStart st)
        ⟨lines, st, false⟩).lines.getD j [] =
        if spanStart st ≤ j ∧ j ≤ spanEnd st ∧ (lines.getD j []).isEmpty = false then
          commentLine (lines.getD j [])
        else lines.getD j [] := by
      intro j
      by_cases hcnd : spanStart st ≤ j ∧ j ≤ spanEnd st ∧ (lines.getD j []).isEmpty = false
      · rw [if_pos hcnd]
        have hjlen : j < lines.length := by
          by_contra hout
          push_neg at hout
          rw [List.getD_eq_default _ _ hout] at hcnd
          simp at hcnd
        exact getD_of_get?_map _ lines j commentLine (by rw [hget1 j, if_pos hcnd]) hjlen
      · rw [if_neg hcnd]
        exact getD_of_get?_eq _ lines j (by rw [hget1 j, if_neg hcnd])
    have hne1 : ((toggleLoop false (spanEnd st) (spanStart st)
        ⟨lines, st, false⟩).lines.getD (spanStart st) []).isEmpty = false := by
      rw [hgetD1 (spanStart st), if_pos ⟨le_refl _, hse, hne⟩]
      exact commentLine_isEmpty _
    have hearly2 : ¬(spanStart (toggleLoop false (spanEnd st) (spanStart st)
          ⟨lines, st, false⟩).st <
        (toggleLoop false (spanEnd st) (spanStart st) ⟨lines, st, false⟩).lines.length ∧
        ((toggleLoop false (spanEnd st) (spanStart st) ⟨lines, st, false⟩).lines.getD
          (spanStart (toggleLoop false (spanEnd st) (spanStart st)
            ⟨lines, st, false⟩).st) []).isEmpty ∧
        spanEnd (toggleLoop false (spanEnd st) (spanStart st) ⟨lines, st, false⟩).st =
          spanStart (toggleLoop false (spanEnd st) (spanStart st) ⟨lines, st, false⟩).st) := by
      rintro ⟨h1, h2, h3⟩
      rw [hspanS, hne1] at h2
      simp at h2
    have hflag2 : uncommentAllFlag (toggleLoop false (spanEnd st) (spanStart st)
        ⟨lines, st, false⟩).lines (spanStart st) (spanEnd st) = true := by
      unfold uncommentAllFlag
      rw [if_pos (by rw [hlen1]; exact hs), Bool.and_eq_true]
      constructor
      · rw [hgetD1 (spanStart st), if_pos ⟨le_refl _, hse, hne⟩]
        exact lineStartsSlashes_commentLine _
      · rw [List.all_eq_true]
        intro j hmem
        rw [List.mem_range'_1] at hmem
        have hje : j ≤ spanEnd st := by omega
        have hjlen : j < lines.length := by
          rw [← hlen1]
          omega
        rw [Bool.or_eq_true]
        by_cases hempty : (lines.getD j []).isEmpty = true
        · left
          rw [hgetD1 j, if_neg (by rintro ⟨a, b, c⟩; rw [hempty] at c; simp at c)]
          exact hempty
        · right
          rw [hgetD1 j, if_pos ⟨hmem.1, hje, by simpa using hempty⟩]
          exact lineStartsSlashes_commentLine _
    obtain ⟨hq1, hq2⟩ := toggleCommentLM_parts
      (toggleLoop false (spanEnd st) (spanStart st) ⟨lines, st, false⟩).lines tab
      (toggleLoop false (spanEnd st) (spanStart st) ⟨lines, st, false⟩).st hearly2
    rw [hspanS, hspanE, hflag2] at hq1
    have hget2 := toggleLoop_uncomment_get? (spanEnd st) (spanStart st)
      ⟨(toggleLoop false (spanEnd st) (spanStart st) ⟨lines, st, false⟩).lines,
        (toggleLoop false (spanEnd st) (spanStart st) ⟨lines, st, false⟩).st, false⟩
    rw [hp1, hp2, hq1]
    apply List.ext_get?_iff.mpr
    intro j
    rw [hget2 j]
    by_cases hcnd : spanStart st ≤ j ∧ j ≤ spanEnd st ∧ (lines.getD j []).isEmpty = false
    · have hjlen : j < lines.length := by
        by_contra hout
        push_neg at hout
        rw [List.getD_eq_default _ _ hout] at hcnd
        simp at hcnd
      have hkey : (toggleLoop false (spanEnd st) (spanStart st)
          ⟨lines, st, false⟩).lines.getD j [] = commentLine (lines.getD j []) := by
        rw [hgetD1 j, if_pos hcnd]
      rw [if_pos ⟨hcnd.1, hcnd.2.1, by rw [hkey]; exact commentLine_isEmpty _,
        by rw [hkey]; exact lineStartsSlashes_commentLine _⟩]
      rw [hget1 j, if_pos hcnd]
      have hg : lines.get? j = some (lines.getD j []) := by
        rw [List.getD_eq_getD_get?]
        cases hq : lines.get? j with
        | none =>
          rw [List.get?_eq_none] at hq
          omega
        | some v => simp
      rw [hg]
      simp [uncommentLine_commentLine]
    · have huntouchedD : (toggleLoop false (spanEnd st) (spanStart st)
          ⟨lines, st, false⟩).lines.getD j [] = lines.getD j [] := by
        rw [hgetD1 j, if_neg hcnd]
      rw [if_neg ?_]
      · rw [hget1 j, if_neg hcnd]
      · rintro ⟨h1, h2, h3, h4⟩
        rw [huntouchedD] at h3
        exact hcnd ⟨h1, h2, h3⟩
  · simp [toggleCommentLM, spanStart, spanEnd, uncommentAllFlag, lineStartsSlashes,
      firstNonWS, isspaceB, toggleLoop, stateAdd, bumpAdd, commentLine, uncommentLine,
      getLineMaxColumn, lineMaxColLoop, getText, getTextLoop, getCharacterIndex,
      charIndexLoop, utf8len_a, utf8len_b, utf8len_c, utf8len_slash]
  · simp [toggleCommentLM, spanStart, spanEnd, uncommentAllFlag, lineStartsSlashes,
      firstNonWS, isspaceB, toggleLoop, stateAdd, bumpAdd, commentLine, uncommentLine,
      getLineMaxColumn, lineMaxColLoop, getText, getTextLoop, getCharacterIndex,
      charIndexLoop, utf8len_a, utf8len_b, utf8len_c, utf8len_slash]
  · simp [toggleCommentLM, spanStart, spanEnd, uncommentAllFlag, lineStartsSlashes,
      firstNonWS, isspaceB, toggleLoop, stateSub, bumpSub, commentLine, uncommentLine,
      getLineMaxColumn, lineMaxColLoop, getText, getTextLoop, getCharacterIndex,
      charIndexLoop, utf8len_a, utf8len_b, utf8len_c, utf8len_slash]
  · simp [toggleCommentLM, spanStart, spanEnd, uncommentAllFlag, lineStartsSlashes,
      firstNonWS, isspaceB, toggleLoop, stateSub, bumpSub, commentLine, uncommentLine,
      getLineMaxColumn, lineMaxColLoop, getText, getTextLoop, getCharacterIndex,
      charIndexLoop, utf8len_a, utf8len_b, utf8len_c, utf8len_slash]

theorem C5_roundtrip_witness :
    (toggleCommentLM (toggleCommentLM [[97, 98, 99]] 4 ⟨⟨0, 3⟩, ⟨0, 0⟩, ⟨0, 3⟩⟩).1 4
        (toggleCommentLM [[97, 98, 99]] 4 ⟨⟨0, 3⟩, ⟨0, 0⟩, ⟨0, 3⟩⟩).2.1).1 =
      [[97, 98, 99]] :=
  (C5_comment_uncomment_roundtrip [[97, 98, 99]] 4 ⟨⟨0, 3⟩, ⟨0, 0⟩, ⟨0, 3⟩⟩
    (by decide) (by decide) (by decide)).1

theorem setTextFold_length (text : List Nat) :
    ∀ acc : List Line, 1 ≤ acc.length → 1 ≤ (setTextFold acc text).length := by
  induction text with
  | nil =>
    intro acc h
    simpa [setTextFold] using h
  | cons c rest ih =>
    intro acc h
    rw [setTextFold]
    split
    · exact ih acc h
    · split
      · apply ih
        simp
      · apply ih
        simp

/-- C7 confirmed: the buffer never becomes empty.  setText always leaves at
least one line and setText of the empty string leaves exactly one empty line;
both line-removal paths, under the bounds their assertions demand
(more than one line for single-line removal; fewer lines removed than exist
for range removal), leave at least one line. -/
theorem C7_buffer_never_empty (aText : List Nat) (lines : List Line) (i s e : Nat) :
    1 ≤ (setText aText).length ∧
    setText [] = [[]] ∧
    (1 < lines.length → i < lines.length → 1 ≤ (removeLineAt lines i).length) ∧
    (s ≤ e → e ≤ lines.length → e - s < lines.length →
      1 ≤ (removeLinesOnly lines s e).length) := by
  refine ⟨setTextFold_length aText [[]] (by simp), rfl, ?_, ?_⟩
  · intro h1 h2
    unfold removeLineAt
    rw [List.length_eraseIdx]
    split <;> omega
  · intro h1 h2 h3
    unfold removeLinesOnly
    rw [List.length_append, List.length_take, List.length_drop]
    omega

theorem C7_witness :
    1 ≤ (setText [97]).length ∧
    setText [] = [[]] ∧
    1 ≤ (removeLineAt [[97], [98]] 0).length ∧
    1 ≤ (removeLinesOnly [[97], [98], [99]] 0 2).length := by
  obtain ⟨h1, h2, h3, h4⟩ := C7_buffer_never_empty [97] [[97], [98]] 0 0 2
  refine ⟨h1, h2, h3 (by decide) (by decide), ?_⟩
  obtain ⟨g1, g2, g3, g4⟩ := C7_buffer_never_empty [97] [[97], [98], [99]] 0 0 2
  exact g4 (by decide) (by decide) (by decide)

theorem removeLinesMarkers_aux (s e : Int) (M : ErrorMarkers) :
    ∀ acc : ErrorMarkers,
      ((removeLinesMarkersPure M s e).map Prod.fst).Nodup →
      (∀ x ∈ acc, x.1 ∉ (removeLinesMarkersPure M s e).map Prod.fst) →
      M.foldl (fun acc p =>
        if s ≤ (if s ≤ p.1 then p.1 - 1 else p.1) ∧
            (if s ≤ p.1 then p.1 - 1 else p.1) ≤ e then acc
        else insertMapKeepFirst acc (if s ≤ p.1 then p.1 - 1 else p.1, p.2)) acc =
      acc ++ removeLinesMarkersPure M s e := by
  induction M with
  | nil =>
    intro acc h1 h2
    simp [removeLinesMarkersPure]
  | cons p rest ih =>
    intro acc h1 h2
    rw [List.foldl_cons]
    by_cases hdrop : s ≤ (if s ≤ p.1 then p.1 - 1 else p.1) ∧
        (if s ≤ p.1 then p.1 - 1 else p.1) ≤ e
    · rw [if_pos hdrop]
      have hpure : removeLinesMarkersPure (p :: rest) s e = removeLinesMarkersPure rest s e := by
        unfold removeLinesMarkersPure
        rw [List.filterMap_cons, if_pos hdrop]
      rw [hpure] at h1 h2
      rw [ih acc h1 h2, hpure]
    · rw [if_neg hdrop]
      have hpure : removeLinesMarkersPure (p :: rest) s e =
          (if s ≤ p.1 then p.1 - 1 else p.1, p.2) :: removeLinesMarkersPure rest s e := by
        unfold removeLinesMarkersPure
        rw [List.filterMap_cons, if_neg hdrop]
      rw [hpure] at h1 h2
      rw [List.map_cons, List.nodup_cons] at h1
      have hins : insertMapKeepFirst acc (if s ≤ p.1 then p.1 - 1 else p.1, p.2) =
          acc ++ [(if s ≤ p.1 then p.1 - 1 else p.1, p.2)] := by
        unfold insertMapKeepFirst
        rw [if_neg ?_]
        rw [List.any_eq_true]
        rintro ⟨x, hx, hxk⟩
        rw [decide_eq_true_eq] at hxk
        exact h2 x hx (by rw [List.map_cons, hxk]; exact List.mem_cons_self _ _)
      rw [hins]
      rw [ih (acc ++ [(if s ≤ p.1 then p.1 - 1 else p.1, p.2)]) h1.2 ?_]
      · rw [hpure, List.append_assoc]
        rfl
      · intro x hx
        rcases List.mem_append.mp hx with hxa | hxs
        · intro hmem
          exact h2 x hxa (by rw [List.map_cons]; exact List.mem_cons_of_mem _ hmem)
        · rw [List.mem_singleton] at hxs
          subst hxs
          exact h1.1

theorem insertLineMarkers_aux (aIndex : Int) (M : ErrorMarkers) :
    ∀ acc : ErrorMarkers,
      ((insertLineMarkersPure M aIndex).map Prod.fst).Nodup →
      (∀ x ∈ acc, x.1 ∉ (insertLineMarkersPure M aIndex).map Prod.fst) →
      M.foldl (fun acc p =>
        insertMapKeepFirst acc (if aIndex ≤ p.1 then p.1 + 1 else p.1, p.2)) acc =
      acc ++ insertLineMarkersPure M aIndex := by
  induction M with
  | nil =>
    intro acc h1 h2
    simp [insertLineMarkersPure]
  | cons p rest ih =>
    intro acc h1 h2
    rw [List.foldl_cons]
    have hpure : insertLineMarkersPure (p :: rest) aIndex =
        (if aIndex ≤ p.1 then p.1 + 1 else p.1, p.2) :: insertLineMarkersPure rest aIndex := by
      unfold insertLineMarkersPure
      rw [List.map_cons]
    rw [hpure] at h1 h2
    rw [List.map_cons, List.nodup_cons] at h1
    have hins : insertMapKeepFirst acc (if aIndex ≤ p.1 then p.1 + 1 else p.1, p.2) =
        acc ++ [(if aIndex ≤ p.1 then p.1 + 1 else p.1, p.2)] := by
      unfold insertMapKeepFirst
      rw [if_neg ?_]
      rw [List.any_eq_true]
      rintro ⟨x, hx, hxk⟩
      rw [decide_eq_true_eq] at hxk
      exact h2 x hx (by rw [List.map_cons, hxk]; exact List.mem_cons_self _ _)
    rw [hins]
    rw [ih (acc ++ [(if aIndex ≤ p.1 then p.1 + 1 else p.1, p.2)]) h1.2 ?_]
    · rw [hpure, List.append_assoc]
      rfl
    · intro x hx
      rcases List.mem_append.mp hx with hxa | hxs
      · intro hmem
        exact h2 x hxa (by rw [List.map_cons]; exact List.mem_cons_of_mem _ hmem)
      · rw [List.mem_singleton] at hxs
        subst hxs
        exact h1.1

/-- C6 counterexample: removing lines [0, 2) (two lines) shifts the surviving
breakpoint 5 down by exactly one (to 4), not by the number of removed lines
(the claim predicts 3); and a breakpoint at line 2 — outside the removed
range — is dropped, while the claim predicts it survives shifted to 0. -/
theorem C6_counterexample :
    removeLinesBreakpoints {5} 0 2 = {4} ∧
    specRemoveLinesBreakpoints {5} 0 2 = {3} ∧
    removeLinesBreakpoints {2} 0 2 = ∅ ∧
    specRemoveLinesBreakpoints {2} 0 2 = {0} ∧
    ({4} : Finset Int) ≠ {3} := by
  refine ⟨?_, ?_, ?_, ?_, ?_⟩ <;> decide

/-- C6 amended: removing the line range [start, end) shifts every side-table
index at or past start down by exactly one (not by the number of removed
lines); breakpoints are dropped when the original index lies in the inclusive
range [start, end] (so also at index end, a surviving line), and error
markers are dropped when the shifted key lands in [start, end] (so the marker
at start itself survives at start - 1); when no two surviving markers collide
on a key, the marker table is the per-entry shift-and-drop map.  Inserting a
line at index i shifts every side-table index at or past i up by one. -/
theorem C6_amended_side_tables (B : Finset Int) (M : ErrorMarkers) (s e aIndex : Int)
    (hse : s ≤ e)
    (hnodup : ((removeLinesMarkersPure M s e).map Prod.fst).Nodup)
    (hnodup2 : ((insertLineMarkersPure M aIndex).map Prod.fst).Nodup) :
    (∀ j : Int, j ∈ removeLinesBreakpoints B s e ↔
      (j ∈ B ∧ j < s) ∨ (j + 1 ∈ B ∧ e ≤ j)) ∧
    removeLinesMarkers M s e = removeLinesMarkersPure M s e ∧
    (∀ j : Int, j ∈ insertLineBreakpoints B aIndex ↔
      (j ∈ B ∧ j < aIndex) ∨ (j - 1 ∈ B ∧ aIndex + 1 ≤ j)) ∧
    insertLineMarkers M aIndex = insertLineMarkersPure M aIndex := by
  refine ⟨?_, ?_, ?_, ?_⟩
  · intro j
    unfold removeLinesBreakpoints
    simp only [Finset.mem_image, Finset.mem_filter]
    constructor
    · rintro ⟨i, ⟨hiB, hni⟩, hj⟩
      by_cases hsi : s ≤ i
      · rw [if_pos hsi] at hj
        right
        subst hj
        constructor
        · simpa using hiB
        · omega
      · rw [if_neg hsi] at hj
        left
        subst hj
        exact ⟨hiB, by omega⟩
    · rintro (⟨hB, hlt⟩ | ⟨hB, hle⟩)
      · exact ⟨j, ⟨hB, by omega⟩, by rw [if_neg (by omega)]⟩
      · refine ⟨j + 1, ⟨hB, by omega⟩, ?_⟩
        rw [if_pos (by omega)]
        omega
  · have h := removeLinesMarkers_aux s e M [] hnodup (by intro x hx; simp at hx)
    unfold removeLinesMarkers
    rw [h]
    rfl
  · intro j
    unfold insertLineBreakpoints
    simp only [Finset.mem_image]
    constructor
    · rintro ⟨i, hiB, hj⟩
      by_cases hii : aIndex ≤ i
      · rw [if_pos hii] at hj
        right
        constructor
        · rw [← hj]
          simpa using hiB
        · omega
      · rw [if_neg hii] at hj
        left
        subst hj
        exact ⟨hiB, by omega⟩
    · rintro (⟨hB, hlt⟩ | ⟨hB, hle⟩)
      · exact ⟨j, hB, by rw [if_neg (by omega)]⟩
      · refine ⟨j - 1, hB, ?_⟩
        rw [if_pos (by omega)]
        omega
  · have h := insertLineMarkers_aux aIndex M [] hnodup2 (by intro x hx; simp at hx)
    unfold insertLineMarkers
    rw [h]
    rfl

theorem C6_amended_witness :
    (4 ∈ removeLinesBreakpoints {5} 0 2 ↔
      ((4 : Int) ∈ ({5} : Finset Int) ∧ (4 : Int) < 0) ∨
      ((5 : Int) ∈ ({5} : Finset Int) ∧ (2 : Int) ≤ 4)) ∧
    removeLinesMarkers [((0 : Int), "m"), ((5 : Int), "n")] 0 2 =
      removeLinesMarkersPure [((0 : Int), "m"), ((5 : Int), "n")] 0 2 ∧
    insertLineMarkers [((0 : Int), "m"), ((5 : Int), "n")] 1 =
      insertLineMarkersPure [((0 : Int), "m"), ((5 : Int), "n")] 1 := by
  obtain ⟨h1, h2, h3, h4⟩ := C6_amended_side_tables {5} [((0 : Int), "m"), ((5 : Int), "n")]
    0 2 1 (by decide) (by decide) (by decide)
  exact ⟨h1 4, h2, h4⟩

end Spec2Proof

